import Mathlib

/-!
Verification of checkProcs.go against its natural-language specification.

The Go source is shallowly embedded below.  Strings are modelled as
`List Char` (all inputs of interest are ASCII, where Go's byte indices
coincide with character indices); the ambient operating-system state
(the /proc directory listing, per-pid stat files) is modelled by an
explicit `ProcFS` record; Go's (value, error) returns are modelled as
pairs with an `Option` error component; a Go runtime panic (for example
a string-slice bounds violation) is a distinct `panicked` outcome.
-/

/-- Go outcome of a call that may instead abort with a runtime panic
(for example a string-slice bounds violation). -/
inductive GoRes (α : Type) where
  | panicked : GoRes α
  | ok : α → GoRes α
deriving DecidableEq

/-- Error conditions that the embedded functions can report through their
Go-style error return values. -/
inductive PErr where
  | openFail : PErr
  | readDirFail : PErr
  | statOther : PErr
  | readFileFail : PErr
  | scanFail : PErr
deriving DecidableEq

/-- Outcome of the bulk-enumeration pipeline: a runtime panic, a returned
error (the Go code returns a nil slice together with the error, so the
error constructor carries no records), or a successful list. -/
inductive PRes (α : Type) where
  | panicked : PRes α
  | err : PErr → PRes α
  | ok : α → PRes α
deriving DecidableEq

/-- Embedding of the Go struct UnixProcess (checkProcs.go lines 71-79). -/
structure UnixProcess where
  pid : Int
  ppid : Int
  state : Char
  pgrp : Int
  sid : Int
  binary : List Char
deriving DecidableEq

/-- Outcome of os.Stat on a /proc pid directory, as distinguished by
findProcess (checkProcs.go lines 97-111): the directory exists, it does
not exist, or some other stat error occurred. -/
inductive StatRes where
  | found : StatRes
  | notExist : StatRes
  | otherErr : StatRes
deriving DecidableEq

/-- One entry of the /proc directory listing, as seen through Go's
os.FileInfo interface: a name and a directory bit. -/
structure FileInfo where
  name : List Char
  isDir : Bool
deriving DecidableEq

/-- Model of the operating-system state read by the program: whether
os.Open on /proc succeeds, the successive Readdir(10) batches (none
models a non-EOF read error at that point of the listing), the result
of os.Stat on each pid directory, and the content of each pid stat file
(none models a ReadFile failure, for example a vanished process). -/
structure ProcFS where
  openOk : Bool
  batches : List (Option (List FileInfo))
  statDir : Int → StatRes
  readStat : Int → Option (List Char)

/-- Index of the first occurrence of a character, as with Go
strings.IndexRune; none models Go's -1. -/
def indexOfChar : List Char → Char → Option Nat
  | [], _ => none
  | x :: t, c => if x = c then some 0 else (indexOfChar t c).map (· + 1)

/-- Decimal-digit test on a character. -/
def isDigitCh (c : Char) : Bool := 48 ≤ c.toNat && c.toNat ≤ 57

/-- Leading run of decimal digits. -/
def takeDigits (s : List Char) : List Char := s.takeWhile isDigitCh

/-- Numeric value of a list of decimal digit characters, most significant
first. -/
def digitsToNat (l : List Char) : Nat :=
  l.foldl (fun a c => a * 10 + (c.toNat - 48)) 0

/-- Skip a run of space characters, as Go's fmt verbs do between
space-separated fields. -/
def skipSpaces (s : List Char) : List Char := s.dropWhile (· = ' ')

/-- Strip an optional leading sign, returning whether the value is
negated and the remaining characters. -/
def stripSign (s : List Char) : Bool × List Char :=
  match s with
  | [] => (false, [])
  | c :: t =>
    if c = '-' then (true, t)
    else if c = '+' then (false, t)
    else (false, c :: t)

/-- One %d conversion of Go fmt scanning: an optional sign followed by at
least one decimal digit, with the value required to fit in a 64-bit int
(Go scans %d into a machine int and reports an overflow as an error).
Returns the value and the unconsumed remainder. -/
def parseDec (s : List Char) : Option (Int × List Char) :=
  let signed := stripSign s
  let ds := takeDigits signed.2
  if ds.isEmpty then none
  else
    let v : Int := if signed.1 then -(digitsToNat ds : Int) else (digitsToNat ds : Int)
    if -(2 ^ 63) ≤ v ∧ v < 2 ^ 63 then some (v, signed.2.drop ds.length) else none

/-- Embedding of fmt.Sscanf(data, "%c %d %d %d", ...) as used by Refresh
(checkProcs.go lines 141-146).  %c takes the next character without
skipping spaces; each %d skips leading spaces then scans a decimal
integer.  Conversions are assigned in order until the first failure, so
the result records which of the four destinations were written; Go's
Sscanf returns a non-nil error exactly when fewer than four items were
scanned, that is, when the last component is none. -/
def scanCDDD (s : List Char) :
    Option Char × Option Int × Option Int × Option Int :=
  match s with
  | [] => (none, none, none, none)
  | c :: rest =>
    match parseDec (skipSpaces rest) with
    | none => (some c, none, none, none)
    | some (a, r1) =>
      match parseDec (skipSpaces r1) with
      | none => (some c, some a, none, none)
      | some (b, r2) =>
        match parseDec (skipSpaces r2) with
        | none => (some c, some a, some b, none)
        | some (d, _) => (some c, some a, some b, some d)

/-- In-order assignment of the Sscanf conversions to the fields of the
receiver of Refresh: state, ppid, pgrp, sid, each written only when its
conversion succeeded (checkProcs.go lines 141-146). -/
def refreshAssign (p : UnixProcess)
    (scanned : Option Char × Option Int × Option Int × Option Int) :
    UnixProcess :=
  let p2 := match scanned.1 with
    | some c => { p with state := c }
    | none => p
  let p3 := match scanned.2.1 with
    | some d => { p2 with ppid := d }
    | none => p2
  let p4 := match scanned.2.2.1 with
    | some d => { p3 with pgrp := d }
    | none => p3
  match scanned.2.2.2 with
  | some d => { p4 with sid := d }
  | none => p4

/-- Parsing part of UnixProcess.Refresh (checkProcs.go lines 128-148),
applied to the bytes read from /proc/pid/stat.  Mirrors the source
exactly: binStart is strings.IndexRune(data, left-paren) + 1 (so 0 when
absent, since Go returns -1); binEnd is the index of the first
right-paren at or after binStart (Go slices data[binStart:] and takes
IndexRune of the result); the binary name is data[binStart :
binStart+binEnd], which panics when binEnd is -1; the remainder is
data[binStart+binEnd+2:], which panics when that index exceeds the
length; finally the Sscanf above fills state, ppid, pgrp, sid in order.
The Bool result is true exactly when Refresh returns a non-nil error
from Sscanf. -/
def refreshParse (p : UnixProcess) (data : List Char) :
    GoRes (UnixProcess × Bool) :=
  let binStart : Nat :=
    match indexOfChar data '(' with
    | some i => i + 1
    | none => 0
  match indexOfChar (data.drop binStart) ')' with
  | none => .panicked
  | some binEnd =>
    let binary := (data.drop binStart).take binEnd
    if binStart + binEnd + 2 > data.length then .panicked
    else
      let rest := data.drop (binStart + binEnd + 2)
      let scanned := scanCDDD rest
      .ok (refreshAssign { p with binary := binary } scanned, scanned.2.2.2.isNone)

/-- UnixProcess.Refresh (checkProcs.go lines 121-149): read
/proc/pid/stat, then parse it as above; a ReadFile failure is returned
as an error, a Sscanf failure likewise.  The (possibly partially
updated) record travels with the error, as the Go method mutates its
receiver in place. -/
def Refresh (fs : ProcFS) (p : UnixProcess) : GoRes (UnixProcess × Option PErr) :=
  match fs.readStat p.pid with
  | none => .ok (p, some .readFileFail)
  | some data =>
    match refreshParse p data with
    | .panicked => .panicked
    | .ok (q, errB) => .ok (q, if errB then some .scanFail else none)

/-- Go zero-value UnixProcess with the given pid, as built by
newUnixProcess (checkProcs.go line 116). -/
def initProc (pid : Int) : UnixProcess :=
  { pid := pid, ppid := 0, state := Char.ofNat 0, pgrp := 0, sid := 0, binary := [] }

/-- newUnixProcess (checkProcs.go lines 115-118): allocate the record with
only the pid set and call Refresh; the record pointer is returned even
when Refresh fails. -/
def newUnixProcess (fs : ProcFS) (pid : Int) : GoRes (UnixProcess × Option PErr) :=
  Refresh fs (initProc pid)

/-- findProcess (checkProcs.go lines 97-111): os.Stat the pid directory;
if it does not exist return (nil, nil); on another stat error return
(nil, err); otherwise return whatever newUnixProcess returns — note that
this is a non-nil record together with any Refresh error. -/
def findProcess (fs : ProcFS) (pid : Int) : GoRes (Option UnixProcess × Option PErr) :=
  match fs.statDir pid with
  | .notExist => .ok (none, none)
  | .otherErr => .ok (none, some .statOther)
  | .found =>
    match newUnixProcess fs pid with
    | .panicked => .panicked
    | .ok (p, e) => .ok (some p, e)

/-- strconv.ParseInt(name, 10, 0) as used by processes (checkProcs.go
line 190): an optional sign followed by one or more decimal digits
making up the whole string, with the value within the 64-bit int range;
anything else is an error, modelled as none. -/
def parseIntGo (s : List Char) : Option Int :=
  let signed := stripSign s
  if signed.2.isEmpty then none
  else if signed.2.all isDigitCh then
    let v : Int := if signed.1 then -(digitsToNat signed.2 : Int) else (digitsToNat signed.2 : Int)
    if -(2 ^ 63) ≤ v ∧ v < 2 ^ 63 then some v else none
  else none

/-- Body of the per-entry loop of processes (checkProcs.go lines
175-201): skip non-directories, skip names whose first byte is not a
decimal digit (indexing name[0] panics on an empty name), skip names
strconv.ParseInt rejects, skip pids whose newUnixProcess returns an
error, and otherwise yield the parsed record. -/
def procEntry (fs : ProcFS) (fi : FileInfo) : GoRes (Option UnixProcess) :=
  if fi.isDir = false then .ok none
  else
    match fi.name with
    | [] => .panicked
    | c :: _ =>
      if c.toNat < 48 ∨ 57 < c.toNat then .ok none
      else
        match parseIntGo fi.name with
        | none => .ok none
        | some pid =>
          match newUnixProcess fs pid with
          | .panicked => .panicked
          | .ok (_, some _) => .ok none
          | .ok (p, none) => .ok (some p)

/-- Fold of procEntry over the entries of one Readdir batch, appending
successfully parsed records to the accumulator (checkProcs.go lines
175-201). -/
def procEntries (fs : ProcFS) : List FileInfo → List UnixProcess →
    GoRes (List UnixProcess)
  | [], acc => .ok acc
  | fi :: rest, acc =>
    match procEntry fs fi with
    | .panicked => .panicked
    | .ok none => procEntries fs rest acc
    | .ok (some p) => procEntries fs rest (acc ++ [p])

/-- The Readdir(10) loop of processes (checkProcs.go lines 160-202):
exhausting the batches is io.EOF and returns the accumulated results; a
read-error batch makes the whole call return (nil, err), discarding the
accumulator. -/
def procBatches (fs : ProcFS) : List (Option (List FileInfo)) →
    List UnixProcess → PRes (List UnixProcess)
  | [], acc => .ok acc
  | none :: _, _ => .err .readDirFail
  | some fis :: rest, acc =>
    match procEntries fs fis acc with
    | .panicked => .panicked
    | .ok acc2 => procBatches fs rest acc2

/-- processes (checkProcs.go lines 152-205): open /proc (failure is
returned as an error) then run the Readdir loop starting from an empty
result slice. -/
def processes (fs : ProcFS) : PRes (List UnixProcess) :=
  if fs.openOk = false then .err .openFail
  else procBatches fs fs.batches []

/-- The per-record test of main's loop (checkProcs.go line 216):
executable name equal to the target and parent pid equal to 1. -/
def matchTarget (target : List Char) (p : UnixProcess) : Bool :=
  p.binary == target && p.ppid == 1

/-- main together with Command (checkProcs.go lines 208-246), as a
function of the argument vector (program name included) and the
operating-system state.  help() and the enumeration-error branch exit
with UNKNOWN = 3; a record matching the target with ppid 1 exits OK = 0;
otherwise the program exits CRITICAL = 2. -/
def mainRun (fs : ProcFS) (args : List (List Char)) : PRes Nat :=
  match args with
  | [_, a1, a2] =>
    if a1 ≠ ('-' :: 'c' :: []) then .ok 3
    else if a2 = [] then .ok 3
    else
      match processes fs with
      | .panicked => .panicked
      | .err _ => .ok 3
      | .ok procs => if procs.any (matchTarget a2) then .ok 0 else .ok 2
  | _ => .ok 3

/-- Digit character of a value below ten. -/
def digitChar (d : Nat) : Char :=
  (['0', '1', '2', '3', '4', '5', '6', '7', '8', '9']).getD d '0'

/-- Fuel-indexed decimal rendering of a natural number, most significant
digit first. -/
def natDigitsAux : Nat → Nat → List Char
  | 0, _ => []
  | fuel + 1, n =>
    if n < 10 then [digitChar n]
    else natDigitsAux fuel (n / 10) ++ [digitChar (n % 10)]

/-- Decimal rendering of a natural number. -/
def natDigits (n : Nat) : List Char := natDigitsAux (n + 1) n

/-- Decimal rendering of an integer, with a leading minus sign when
negative. -/
def intChars (n : Int) : List Char :=
  if n < 0 then '-' :: natDigits n.natAbs else natDigits n.natAbs

/-- Modelled from the spec: the repository contains no serializer, so the
documented status-record format of section 4.1 is rendered here for the
round-trip property — the leading numeric pid field, the executable name
enclosed in parentheses, then the single-character state code, the
parent pid, the process group and the session id, space-separated,
followed by the further space-separated fields of a real record
(trailing, which the parser ignores and which must not begin with a
digit — a real record continues with a separating space). -/
def serializeStat (pid : Int) (name : List Char) (state : Char)
    (ppid pgrp sid : Int) (trailing : List Char) : List Char :=
  (intChars pid ++ (' ' :: [])) ++
    ('(' :: (name ++ (')' ::
      (' ' :: state :: ' ' ::
        (intChars ppid ++
          (' ' :: (intChars pgrp ++ (' ' :: (intChars sid ++ trailing)))))))))

/-- The stat text of the concrete scenario of claim C2 (spec section 8);
the trailing literal dots stand for the further fields of a real record,
which the parser ignores. -/
def statSshd : List Char := "300 (sshd) S 1 300 300 0 -1 ...".toList

/-- A stat text whose executable name itself contains parentheses
(claim C1). -/
def statParenName : List Char := "300 (a(b)c) S 1 300 300 0 -1".toList

/-- A malformed stat text missing the closing parenthesis delimiter
(claim C4). -/
def statNoClose : List Char := "300 (sshd S 1 300".toList

/-- A malformed stat text missing the opening parenthesis delimiter
(claim C4). -/
def statNoOpen : List Char := "300 sshd) S 1 300 300".toList

/-- A stat text with an empty executable name (claim C5). -/
def statEmptyName : List Char := "42 () S 1 2 3".toList

/-- A malformed stat text with non-numeric data where the numeric fields
are expected (claims C4 and C5). -/
def statBadNum : List Char := "7 (x) Z 1 2 bad".toList

/-- The stat text of pid 1 in the concrete scenario of claim C7. -/
def statInit : List Char := "1 (init) S 0 1 1 0 -1".toList

/-- The stat text of pid 2 in the concrete scenario of claim C7. -/
def statKthreadd : List Char := "2 (kthreadd) S 0 2 2 0 -1".toList

/-- A well-formed stat text for pid 8, used as the surviving neighbour of
a failing entry in the bulk-enumeration fixtures. -/
def statY : List Char := "8 (y) S 1 8 8 0 -1".toList

/-- The record parsed from statInit. -/
def pInit : UnixProcess :=
  { pid := 1, ppid := 0, state := 'S', pgrp := 1, sid := 1, binary := "init".toList }

/-- The record parsed from statKthreadd. -/
def pKthreadd : UnixProcess :=
  { pid := 2, ppid := 0, state := 'S', pgrp := 2, sid := 2, binary := "kthreadd".toList }

/-- The record parsed from statSshd. -/
def pSshd : UnixProcess :=
  { pid := 300, ppid := 1, state := 'S', pgrp := 300, sid := 300, binary := "sshd".toList }

/-- The record parsed from statY. -/
def pY : UnixProcess :=
  { pid := 8, ppid := 1, state := 'S', pgrp := 8, sid := 8, binary := "y".toList }

/-- Registry fixture for the concrete scenario of claim C7: one Readdir
batch holding the entries 1, 2, self, 42abc and 300, the three numeric
ones being directories with valid stat records. -/
def exFS7 : ProcFS :=
  { openOk := true
    batches := [some [ { name := "1".toList, isDir := true },
                       { name := "2".toList, isDir := true },
                       { name := "self".toList, isDir := true },
                       { name := "42abc".toList, isDir := true },
                       { name := "300".toList, isDir := true } ]]
    statDir := fun _ => .notExist
    readStat := fun pid =>
      if pid = 1 then some statInit
      else if pid = 2 then some statKthreadd
      else if pid = 300 then some statSshd
      else none }

/-- Registry fixture with one malformed entry (pid 7, non-numeric fields)
next to one well-formed entry (pid 8); pid 7 also exists for the lookup
path. -/
def exFS5 : ProcFS :=
  { openOk := true
    batches := [some [ { name := "7".toList, isDir := true },
                       { name := "8".toList, isDir := true } ]]
    statDir := fun pid => if pid = 7 then .found else .notExist
    readStat := fun pid =>
      if pid = 7 then some statBadNum
      else if pid = 8 then some statY
      else none }

/-- A malformed stat text for pid 9 missing its closing parenthesis. -/
def statNoClose9 : List Char := "9 (bad S 1 9".toList

/-- Registry fixture with one malformed entry whose stat record lacks the
closing parenthesis (pid 9) listed before a well-formed entry (pid 8). -/
def exFS6 : ProcFS :=
  { openOk := true
    batches := [some [ { name := "9".toList, isDir := true },
                       { name := "8".toList, isDir := true } ]]
    statDir := fun _ => .notExist
    readStat := fun pid =>
      if pid = 9 then some statNoClose9
      else if pid = 8 then some statY
      else none }

/-- Registry fixture whose listing fails partway: a first successful
Readdir batch containing the parseable pid 8, then a read error. -/
def exFS10 : ProcFS :=
  { openOk := true
    batches := [some [ { name := "8".toList, isDir := true } ], none]
    statDir := fun _ => .notExist
    readStat := fun pid => if pid = 8 then some statY else none }

/-- The record a single loop entry of processes contributes to the result
slice, if any. -/
def entryOk (fs : ProcFS) (fi : FileInfo) : Option UnixProcess :=
  match procEntry fs fi with
  | .ok (some p) => some p
  | _ => none

/-- Concatenation of the entries of the successfully read Readdir
batches, in listing order. -/
def goodEntries : List (Option (List FileInfo)) → List FileInfo
  | [] => []
  | none :: rest => goodEntries rest
  | some fis :: rest => fis ++ goodEntries rest

/-- 64-bit machine-int range, the domain of Go's int on the platforms the
program targets. -/
def fitsInt (v : Int) : Prop := -(2 ^ 63) ≤ v ∧ v < 2 ^ 63

/-- The first character, if any, is not a decimal digit — the shape of
the text that may legitimately follow a scanned numeric field. -/
def headNotDigit : List Char → Prop
  | [] => True
  | c :: _ => isDigitCh c = false

theorem procEntries_ok_eq (fs : ProcFS) (fis : List FileInfo) :
    ∀ acc out, procEntries fs fis acc = .ok out →
      out = acc ++ fis.filterMap (entryOk fs) := by
  induction fis with
  | nil =>
    intro acc out h
    simp only [procEntries, GoRes.ok.injEq] at h
    simp [h.symm]
  | cons fi rest ih =>
    intro acc out h
    simp only [procEntries] at h
    cases hpe : procEntry fs fi with
    | panicked => rw [hpe] at h; exact absurd h (by simp)
    | ok op =>
      rw [hpe] at h
      cases op with
      | none =>
        have h2 := ih _ _ h
        simp [entryOk, List.filterMap_cons, hpe, h2]
      | some p =>
        have h2 := ih _ _ h
        simp [entryOk, List.filterMap_cons, hpe, h2, List.append_assoc]

theorem procEntries_safe (fs : ProcFS) (fis : List FileInfo)
    (H : ∀ fi ∈ fis, procEntry fs fi ≠ .panicked) :
    ∀ acc, procEntries fs fis acc = .ok (acc ++ fis.filterMap (entryOk fs)) := by
  induction fis with
  | nil => intro acc; simp [procEntries]
  | cons fi rest ih =>
    intro acc
    have hfi := H fi (List.mem_cons_self fi rest)
    have Hrest : ∀ x ∈ rest, procEntry fs x ≠ .panicked :=
      fun x hx => H x (List.mem_cons_of_mem _ hx)
    simp only [procEntries]
    cases hpe : procEntry fs fi with
    | panicked => exact absurd hpe hfi
    | ok op =>
      cases op with
      | none => simp [entryOk, List.filterMap_cons, hpe, ih Hrest acc]
      | some p =>
        simp [entryOk, List.filterMap_cons, hpe, ih Hrest (acc ++ [p]),
          List.append_assoc]

theorem procBatches_ok_eq (fs : ProcFS) (bs : List (Option (List FileInfo))) :
    ∀ acc out, procBatches fs bs acc = .ok out →
      out = acc ++ (goodEntries bs).filterMap (entryOk fs) := by
  induction bs with
  | nil =>
    intro acc out h
    simp only [procBatches, PRes.ok.injEq] at h
    simp [goodEntries, h.symm]
  | cons b rest ih =>
    intro acc out h
    cases b with
    | none => simp [procBatches] at h
    | some fis =>
      simp only [procBatches] at h
      cases hpe : procEntries fs fis acc with
      | panicked => rw [hpe] at h; exact absurd h (by simp)
      | ok acc2 =>
        rw [hpe] at h
        have h2 := procEntries_ok_eq fs fis acc acc2 hpe
        have h3 := ih _ _ h
        subst h2
        simp [h3, goodEntries, List.filterMap_append, List.append_assoc]

theorem procBatches_err_mem (fs : ProcFS) (bs : List (Option (List FileInfo))) :
    ∀ acc e, procBatches fs bs acc = .err e → none ∈ bs := by
  induction bs with
  | nil => intro acc e h; simp [procBatches] at h
  | cons b rest ih =>
    intro acc e h
    cases b with
    | none => exact List.mem_cons_self _ _
    | some fis =>
      simp only [procBatches] at h
      cases hpe : procEntries fs fis acc with
      | panicked => rw [hpe] at h; exact absurd h (by simp)
      | ok acc2 =>
        rw [hpe] at h
        exact List.mem_cons_of_mem _ (ih _ _ h)

theorem procBatches_safe_ok (fs : ProcFS) (bs : List (Option (List FileInfo)))
    (hnone : none ∉ bs)
    (H : ∀ b ∈ bs, ∀ fi ∈ b.getD [], procEntry fs fi ≠ .panicked) :
    ∀ acc, procBatches fs bs acc = .ok (acc ++ (goodEntries bs).filterMap (entryOk fs)) := by
  induction bs with
  | nil => intro acc; simp [procBatches, goodEntries]
  | cons b rest ih =>
    intro acc
    cases b with
    | none => exact absurd (List.mem_cons_self _ _) hnone
    | some fis =>
      have h1 := procEntries_safe fs fis
        (fun fi hfi => H (some fis) (List.mem_cons_self _ _) fi hfi) acc
      simp only [procBatches, h1]
      have hnone2 : none ∉ rest := fun hm => hnone (List.mem_cons_of_mem _ hm)
      have H2 : ∀ b ∈ rest, ∀ fi ∈ b.getD [], procEntry fs fi ≠ .panicked :=
        fun b hb => H b (List.mem_cons_of_mem _ hb)
      simp [ih hnone2 H2, goodEntries, List.filterMap_append, List.append_assoc]

theorem procBatches_pre_err (fs : ProcFS) (pre post : List (Option (List FileInfo)))
    (H : ∀ b ∈ pre, ∀ fi ∈ b.getD [], procEntry fs fi ≠ .panicked) :
    ∀ acc, procBatches fs (pre ++ none :: post) acc = .err .readDirFail := by
  induction pre with
  | nil => intro acc; simp [procBatches]
  | cons b rest ih =>
    intro acc
    cases b with
    | none => simp [procBatches]
    | some fis =>
      have h1 := procEntries_safe fs fis
        (fun fi hfi => H (some fis) (List.mem_cons_self _ _) fi hfi) acc
      have H2 : ∀ b ∈ rest, ∀ fi ∈ b.getD [], procEntry fs fi ≠ .panicked :=
        fun b hb => H b (List.mem_cons_of_mem _ hb)
      simp only [List.cons_append, procBatches, h1]
      exact ih H2 _

theorem mem_goodEntries (bs : List (Option (List FileInfo))) (fi : FileInfo)
    (h : fi ∈ goodEntries bs) : ∃ fis, some fis ∈ bs ∧ fi ∈ fis := by
  induction bs with
  | nil => simp [goodEntries] at h
  | cons b rest ih =>
    cases b with
    | none =>
      obtain ⟨fis, h1, h2⟩ := ih (by simpa [goodEntries] using h)
      exact ⟨fis, List.mem_cons_of_mem _ h1, h2⟩
    | some fis0 =>
      rcases List.mem_append.1 (by simpa [goodEntries] using h) with h1 | h1
      · exact ⟨fis0, List.mem_cons_self _ _, h1⟩
      · obtain ⟨fis, h2, h3⟩ := ih h1
        exact ⟨fis, List.mem_cons_of_mem _ h2, h3⟩

theorem stripSign_no_sign (c : Char) (t : List Char) (h1 : c ≠ '-') (h2 : c ≠ '+') :
    stripSign (c :: t) = (false, c :: t) := by
  simp [stripSign, h1, h2]

theorem parseIntGo_all_digits (c : Char) (t : List Char)
    (hc : ¬(c.toNat < 48 ∨ 57 < c.toNat)) (pid : Int)
    (h : parseIntGo (c :: t) = some pid) : (c :: t).all isDigitCh = true := by
  have hc1 : c ≠ '-' := by rintro rfl; exact hc (Or.inl (by decide))
  have hc2 : c ≠ '+' := by rintro rfl; exact hc (Or.inl (by decide))
  simp only [parseIntGo, stripSign_no_sign c t hc1 hc2] at h
  by_cases hall : (c :: t).all isDigitCh
  · exact hall
  · simp [hall] at h

theorem entryOk_some (fs : ProcFS) (fi : FileInfo) (p : UnixProcess)
    (h : entryOk fs fi = some p) : procEntry fs fi = .ok (some p) := by
  unfold entryOk at h
  cases hpe : procEntry fs fi with
  | panicked => rw [hpe] at h; simp at h
  | ok op =>
    cases op with
    | none => rw [hpe] at h; simp at h
    | some q =>
      rw [hpe] at h
      simp only [Option.some.injEq] at h
      subst h
      rfl

theorem procEntry_some (fs : ProcFS) (fi : FileInfo) (p : UnixProcess)
    (h : procEntry fs fi = .ok (some p)) :
    fi.isDir = true ∧ fi.name ≠ [] ∧ fi.name.all isDigitCh = true ∧
      ∃ pid, parseIntGo fi.name = some pid ∧ newUnixProcess fs pid = .ok (p, none) := by
  by_cases hd : fi.isDir = false
  · simp [procEntry, hd] at h
  · have hd' : fi.isDir = true := by revert hd; cases fi.isDir <;> simp
    cases hn : fi.name with
    | nil => simp [procEntry, hd', hn] at h
    | cons c t =>
      by_cases hc : c.toNat < 48 ∨ 57 < c.toNat
      · simp [procEntry, hd', hn, hc] at h
      · cases hpi : parseIntGo (c :: t) with
        | none => simp [procEntry, hd', hn, hc, hpi] at h
        | some pid =>
          cases hnp : newUnixProcess fs pid with
          | panicked => simp [procEntry, hd', hn, hc, hpi, hnp] at h
          | ok pr =>
            obtain ⟨q, e⟩ := pr
            cases e with
            | some err => simp [procEntry, hd', hn, hc, hpi, hnp] at h
            | none =>
              simp only [procEntry, hd', hn, hc, hpi, hnp] at h
              simp only [Bool.true_eq_false, if_false, or_self, ite_false,
                GoRes.ok.injEq, Option.some.injEq] at h
              subst h
              refine ⟨hd', by simp, ?_, pid, rfl, hnp⟩
              exact parseIntGo_all_digits c t hc pid hpi

theorem initProc_pid (pid : Int) : (initProc pid).pid = pid := rfl

theorem newUnixProcess_cases (fs : ProcFS) (pid : Int) (p : UnixProcess) (e : Option PErr)
    (h : newUnixProcess fs pid = .ok (p, e)) :
    (fs.readStat pid = none ∧ p = initProc pid ∧ e = some .readFileFail) ∨
    (∃ data errB, fs.readStat pid = some data ∧
      refreshParse (initProc pid) data = .ok (p, errB) ∧
      e = (if errB then some .scanFail else none)) := by
  unfold newUnixProcess Refresh at h
  rw [initProc_pid] at h
  cases hrs : fs.readStat pid with
  | none =>
    simp only [hrs] at h
    simp only [GoRes.ok.injEq, Prod.mk.injEq] at h
    exact Or.inl ⟨rfl, h.1.symm, h.2.symm⟩
  | some data =>
    simp only [hrs] at h
    cases hrp : refreshParse (initProc pid) data with
    | panicked => simp [hrp] at h
    | ok pr =>
      obtain ⟨q, errB⟩ := pr
      simp only [hrp] at h
      simp only [GoRes.ok.injEq, Prod.mk.injEq] at h
      exact Or.inr ⟨data, errB, rfl, by rw [← h.1]; exact hrp, h.2.symm⟩

theorem matchTarget_any (procs : List UnixProcess) (target : List Char) :
    procs.any (matchTarget target) = true ↔
      ∃ p, p ∈ procs ∧ p.binary = target ∧ p.ppid = 1 := by
  rw [List.any_eq_true]
  constructor
  · rintro ⟨p, hp, hm⟩
    simp only [matchTarget, Bool.and_eq_true, beq_iff_eq] at hm
    exact ⟨p, hp, hm⟩
  · rintro ⟨p, hp, h1, h2⟩
    exact ⟨p, hp, by simp [matchTarget, h1, h2]⟩

/-- C2: parsing the status text of the concrete scenario
"300 (sshd) S 1 300 300 0 -1 ..." for identifier 300 produces the record
with pid 300, executable name sshd, parent identifier 1 and state S
(and the Sscanf reports no error). -/
theorem parse_sshd_record :
    refreshParse (initProc 300) statSshd = GoRes.ok (pSshd, false) := by decide

/-- C1 (code-bug evidence): on the record "300 (a(b)c) S 1 300 300 0 -1",
whose executable name a(b)c itself contains parentheses, the parser does
NOT extract the full name between the first opening and the last closing
delimiter: it stops at the first closing parenthesis after the opening
one, truncating the name to a(b, and then resumes field parsing inside
the name, so the state byte is read as the stray closing parenthesis and
the numeric scan fails with an error. -/
theorem parser_paren_name_truncated :
    refreshParse (initProc 300) statParenName =
      GoRes.ok ({ pid := 300, ppid := 0, state := ')', pgrp := 0, sid := 0,
                  binary := 'a' :: '(' :: 'b' :: [] }, true) := by decide

/-- C4 (code-bug evidence): a status record that is read but lacks its
delimiters does not fail with the claimed malformed-record error
condition.  A record missing the closing parenthesis makes the parser
panic (Go slice bounds violation data[binStart : binStart-1]), which
crashes even bulk enumeration instead of being skipped; a record missing
the opening parenthesis can even parse successfully, silently yielding
the garbage name "300 sshd" with no error at all.  (Only the
non-numeric-field kind of malformation behaves as claimed, via a Sscanf
error.) -/
theorem malformed_record_behavior :
    refreshParse (initProc 300) statNoClose = GoRes.panicked ∧
    refreshParse (initProc 300) statNoOpen =
      GoRes.ok ({ pid := 300, ppid := 1, state := 'S', pgrp := 300, sid := 300,
                  binary := "300 sshd".toList }, false) := by decide

/-- C3: for an identifier whose process does not exist (os.Stat reports
not-exist), FindProcess returns no record together with no error:
absence is a normal outcome, not an error condition. -/
theorem lookup_missing_pid_no_error (fs : ProcFS) (pid : Int)
    (h : fs.statDir pid = .notExist) :
    findProcess fs pid = .ok (none, none) := by
  unfold findProcess
  rw [h]

theorem lookup_missing_pid_no_error_witness :
    findProcess exFS7 12345 = GoRes.ok (none, none) :=
  lookup_missing_pid_no_error exFS7 12345 rfl

/-- Supporting characterization of the snapshot's intended discard
policy, which holds only away from the parser's panic bug.  First
conjunct: an error is returned only when os.Open failed or some Readdir
batch failed.  Second conjunct: when the registry itself is readable and
no entry's stat record triggers the missing-parenthesis panic, the
operation succeeds and returns exactly the per-entry successes — each
such failing entry is simply absent from the result and aborts
nothing. -/
theorem snapshot_error_policy (fs : ProcFS) :
    (∀ e, processes fs = .err e → fs.openOk = false ∨ none ∈ fs.batches) ∧
    (fs.openOk = true → none ∉ fs.batches →
      (∀ b ∈ fs.batches, ∀ fi ∈ b.getD [], procEntry fs fi ≠ .panicked) →
      processes fs = .ok ((goodEntries fs.batches).filterMap (entryOk fs))) := by
  constructor
  · intro e h
    by_cases ho : fs.openOk = false
    · exact Or.inl ho
    · rw [processes, if_neg ho] at h
      exact Or.inr (procBatches_err_mem fs fs.batches [] e h)
  · intro ho hnone H
    rw [processes, if_neg (by simp [ho])]
    simpa using procBatches_safe_ok fs fs.batches hnone H []

theorem snapshot_error_policy_example : processes exFS5 = PRes.ok [pY] := by
  have h := (snapshot_error_policy exFS5).2 rfl (by decide) (by decide)
  rw [h]
  decide

/-- C6 (code-bug evidence): a per-identifier failure CAN abort the whole
snapshot.  With registry entries 9 and 8 (both process directories),
where pid 9's stat record "9 (bad S 1 9" is malformed — missing the
closing parenthesis — and pid 8's record is valid, the bulk enumeration
panics inside Refresh (the Go slice data[binStart : binStart-1] is out
of range) instead of skipping pid 9: the whole operation aborts and the
valid record of pid 8 is lost, contradicting the claimed silent-discard
policy and the source's own comment that from that point any errors are
ignored.  Non-panicking per-identifier failures are indeed discarded
silently, as snapshot_error_policy above shows. -/
theorem snapshot_malformed_panic : processes exFS6 = PRes.panicked := by decide

/-- C7: the snapshot yields records only for registry entries that are
directories with purely-decimal-digit names (first conjunct: every
returned record arises from such an entry), and on the concrete registry
listing 1, 2, self, 42abc, 300 of the scenario it returns exactly the
records of pids 1, 2 and 300, excluding self and 42abc (second
conjunct). -/
theorem snapshot_filters_numeric_dirs :
    (∀ fs res p, processes fs = PRes.ok res → p ∈ res →
      ∃ fis fi, some fis ∈ fs.batches ∧ fi ∈ fis ∧ fi.isDir = true ∧
        fi.name ≠ [] ∧ fi.name.all isDigitCh = true) ∧
    processes exFS7 = PRes.ok [pInit, pKthreadd, pSshd] := by
  constructor
  · intro fs res p hok hp
    have ho : ¬ fs.openOk = false := by
      intro hfalse
      rw [processes, if_pos hfalse] at hok
      exact absurd hok (by simp)
    rw [processes, if_neg ho] at hok
    have hchar := procBatches_ok_eq fs fs.batches [] res hok
    rw [hchar] at hp
    simp only [List.nil_append] at hp
    obtain ⟨fi, hfi, hfi2⟩ := List.mem_filterMap.1 hp
    obtain ⟨fis, h1, h2⟩ := mem_goodEntries fs.batches fi hfi
    have h3 := procEntry_some fs fi p (entryOk_some fs fi p hfi2)
    exact ⟨fis, fi, h1, h2, h3.1, h3.2.1, h3.2.2.1⟩
  · decide

theorem snapshot_filters_numeric_dirs_witness :
    ∃ fis fi, some fis ∈ exFS7.batches ∧ fi ∈ fis ∧ fi.isDir = true ∧
      fi.name ≠ [] ∧ fi.name.all isDigitCh = true :=
  snapshot_filters_numeric_dirs.1 exFS7 [pInit, pKthreadd, pSshd] pInit
    (by decide) (by decide)

/-- C10: when a Readdir error (not end-of-listing) occurs partway through
the enumeration, Processes returns that error and no collection at all —
the err outcome carries no records, modelling the source's return nil,
err, so the records parsed from the earlier batches are discarded. -/
theorem readdir_error_discards_partial (fs : ProcFS)
    (pre post : List (Option (List FileInfo)))
    (hb : fs.batches = pre ++ none :: post) (ho : fs.openOk = true)
    (H : ∀ b ∈ pre, ∀ fi ∈ b.getD [], procEntry fs fi ≠ .panicked) :
    processes fs = PRes.err PErr.readDirFail := by
  rw [processes, if_neg (by simp [ho]), hb]
  exact procBatches_pre_err fs pre post H []

theorem readdir_error_discards_partial_witness :
    processes exFS10 = PRes.err PErr.readDirFail :=
  readdir_error_discards_partial exFS10
    [some [ { name := "8".toList, isDir := true } ]] []
    (by decide) rfl (by decide)

/-- C8: the command-line collaborator's exit codes.  With a well-formed
invocation, a snapshot record whose executable name equals the target
and whose parent identifier is 1 makes the program exit 0 (OK) and the
absence of such a record makes it exit 2 (critical); an enumeration
failure exits 3 (indeterminate), as does any usage error (wrong
argument count, wrong flag, or empty target). -/
theorem collaborator_exit_codes (fs : ProcFS) (prog a1 target : List Char) :
    ((a1 ≠ ('-' :: 'c' :: []) ∨ target = []) →
       mainRun fs [prog, a1, target] = PRes.ok 3) ∧
    (∀ e, a1 = ('-' :: 'c' :: []) → target ≠ [] → processes fs = PRes.err e →
       mainRun fs [prog, a1, target] = PRes.ok 3) ∧
    (∀ procs, a1 = ('-' :: 'c' :: []) → target ≠ [] → processes fs = PRes.ok procs →
       ((∃ p, p ∈ procs ∧ p.binary = target ∧ p.ppid = 1) →
          mainRun fs [prog, a1, target] = PRes.ok 0) ∧
       ((¬ ∃ p, p ∈ procs ∧ p.binary = target ∧ p.ppid = 1) →
          mainRun fs [prog, a1, target] = PRes.ok 2)) ∧
    (∀ args : List (List Char), args.length ≠ 3 → mainRun fs args = PRes.ok 3) := by
  refine ⟨?_, ?_, ?_, ?_⟩
  · rintro (h | h)
    · simp [mainRun, h]
    · subst h
      simp [mainRun]
  · intro e h1 h2 h3
    subst h1
    simp only [mainRun]
    rw [if_neg (by simp), if_neg h2, h3]
  · intro procs h1 h2 h3
    subst h1
    constructor
    · intro hex
      simp only [mainRun]
      rw [if_neg (by simp), if_neg h2, h3]
      show (if procs.any (matchTarget target) = true
          then PRes.ok 0 else PRes.ok 2) = PRes.ok 0
      rw [if_pos ((matchTarget_any procs target).2 hex)]
    · intro hnex
      simp only [mainRun]
      rw [if_neg (by simp), if_neg h2, h3]
      show (if procs.any (matchTarget target) = true
          then PRes.ok 0 else PRes.ok 2) = PRes.ok 2
      rw [if_neg (fun hc => hnex ((matchTarget_any procs target).1 hc))]
  · intro args hlen
    rcases args with _ | ⟨a, _ | ⟨b, _ | ⟨c, _ | ⟨d, rest⟩⟩⟩⟩
    · rfl
    · rfl
    · rfl
    · exact absurd rfl hlen
    · rfl

theorem collaborator_exit_codes_witness :
    mainRun exFS7 [('p' :: []), ('-' :: 'c' :: []),
        ('s' :: 's' :: 'h' :: 'd' :: [])] = PRes.ok 0 := by
  have h := ((collaborator_exit_codes exFS7 ('p' :: []) ('-' :: 'c' :: [])
      ('s' :: 's' :: 'h' :: 'd' :: [])).2.2.1 [pInit, pKthreadd, pSshd]
      rfl (by decide) (by decide)).1
  exact h ⟨pSshd, by decide⟩

/-- C5 (counterexample): both halves of the claim fail on the code.
First conjunct: for pid 7, whose stat record "7 (x) Z 1 2 bad" has
non-numeric text in a numeric field, lookup returns a partially
populated record (state, ppid and pgrp were assigned before the scan
failed; sid keeps its zero value) TOGETHER with the error, not "no
record at all" — newUnixProcess returns the record pointer alongside the
Refresh error.  Second conjunct: the record "42 () S 1 2 3" parses
successfully with an EMPTY executable name. -/
theorem record_invariants_cex :
    findProcess exFS5 7 =
      GoRes.ok (some { pid := 7, ppid := 1, state := 'Z', pgrp := 2, sid := 0,
                       binary := 'x' :: [] }, some PErr.scanFail) ∧
    refreshParse (initProc 42) statEmptyName =
      GoRes.ok ({ pid := 42, ppid := 1, state := 'S', pgrp := 2, sid := 3,
                  binary := [] }, false) := by decide

/-- C5 (amended): during bulk enumeration a parse failure yields no
record at all — every record the snapshot returns stems from a fully
successful parse of that pid's stat text (first conjunct) — whereas
single-identifier lookup returns the partially populated record
alongside the error when the numeric scan fails (second conjunct); the
executable name of a successfully parsed record may be empty. -/
theorem record_population (fs : ProcFS) :
    (∀ res p, processes fs = PRes.ok res → p ∈ res →
      ∃ pid data, fs.readStat pid = some data ∧
        refreshParse (initProc pid) data = GoRes.ok (p, false)) ∧
    (∀ pid data p, fs.statDir pid = .found → fs.readStat pid = some data →
      refreshParse (initProc pid) data = GoRes.ok (p, true) →
      findProcess fs pid = GoRes.ok (some p, some PErr.scanFail)) := by
  constructor
  · intro res p hok hp
    have ho : ¬ fs.openOk = false := by
      intro hfalse
      rw [processes, if_pos hfalse] at hok
      exact absurd hok (by simp)
    rw [processes, if_neg ho] at hok
    have hchar := procBatches_ok_eq fs fs.batches [] res hok
    rw [hchar] at hp
    simp only [List.nil_append] at hp
    obtain ⟨fi, hfi, hfi2⟩ := List.mem_filterMap.1 hp
    obtain ⟨pid, hpi, hnp⟩ :=
      (procEntry_some fs fi p (entryOk_some fs fi p hfi2)).2.2.2
    rcases newUnixProcess_cases fs pid p none hnp with
      ⟨h4, h5, h6⟩ | ⟨data, errB, h4, h5, h6⟩
    · simp at h6
    · cases errB with
      | true => simp at h6
      | false => exact ⟨pid, data, h4, h5⟩
  · intro pid data p hstat hread hparse
    simp only [findProcess, hstat, newUnixProcess, Refresh, initProc_pid,
      hread, hparse]
    rfl

theorem record_population_witness :
    ∃ pid data, exFS5.readStat pid = some data ∧
      refreshParse (initProc pid) data = GoRes.ok (pY, false) :=
  (record_population exFS5).1 [pY] pY (by decide) (by decide)

theorem digitChar_isDigit (d : Nat) (h : d < 10) : isDigitCh (digitChar d) = true := by
  interval_cases d <;> decide

theorem digitChar_val (d : Nat) (h : d < 10) : (digitChar d).toNat - 48 = d := by
  interval_cases d <;> decide

theorem natDigitsAux_ne_nil (fuel n : Nat) (h : n < fuel) : natDigitsAux fuel n ≠ [] := by
  cases fuel with
  | zero => omega
  | succ f =>
    simp only [natDigitsAux]
    split
    · simp
    · simp

theorem natDigitsAux_all_digit (fuel : Nat) :
    ∀ n, n < fuel → ∀ c ∈ natDigitsAux fuel n, isDigitCh c = true := by
  induction fuel with
  | zero => intro n h; omega
  | succ f ih =>
    intro n h c hc
    simp only [natDigitsAux] at hc
    by_cases h10 : n < 10
    · rw [if_pos h10] at hc
      simp only [List.mem_singleton] at hc
      subst hc
      exact digitChar_isDigit n h10
    · rw [if_neg h10] at hc
      rcases List.mem_append.1 hc with h1 | h1
      · exact ih (n / 10) (by omega) c h1
      · simp only [List.mem_singleton] at h1
        subst h1
        exact digitChar_isDigit (n % 10) (Nat.mod_lt _ (by omega))

theorem natDigitsAux_foldl (fuel : Nat) :
    ∀ n a, n < fuel →
      (natDigitsAux fuel n).foldl (fun a c => a * 10 + (c.toNat - 48)) a =
        a * 10 ^ (natDigitsAux fuel n).length + n := by
  induction fuel with
  | zero => intro n a h; omega
  | succ f ih =>
    intro n a h
    by_cases h10 : n < 10
    · simp only [natDigitsAux, if_pos h10]
      simp only [List.foldl_cons, List.foldl_nil, List.length_singleton]
      rw [digitChar_val n h10]
      ring
    · simp only [natDigitsAux, if_neg h10]
      rw [List.foldl_append, List.length_append]
      rw [ih (n / 10) a (by omega)]
      simp only [List.foldl_cons, List.foldl_nil, List.length_singleton]
      rw [digitChar_val (n % 10) (Nat.mod_lt _ (by omega))]
      calc (a * 10 ^ (natDigitsAux f (n / 10)).length + n / 10) * 10 + n % 10
          = a * (10 ^ (natDigitsAux f (n / 10)).length * 10) +
              (n / 10 * 10 + n % 10) := by ring
        _ = a * 10 ^ ((natDigitsAux f (n / 10)).length + 1) + n := by
              rw [pow_succ]
              omega

theorem digitsToNat_natDigits (n : Nat) : digitsToNat (natDigits n) = n := by
  have h := natDigitsAux_foldl (n + 1) n 0 (Nat.lt_succ_self n)
  simpa [digitsToNat, natDigits] using h

theorem natDigits_ne_nil (n : Nat) : natDigits n ≠ [] :=
  natDigitsAux_ne_nil (n + 1) n (Nat.lt_succ_self n)

theorem natDigits_all_digit (n : Nat) : ∀ c ∈ natDigits n, isDigitCh c = true :=
  natDigitsAux_all_digit (n + 1) n (Nat.lt_succ_self n)

theorem intChars_chars (m : Int) : ∀ c ∈ intChars m, isDigitCh c = true ∨ c = '-' := by
  intro c hc
  unfold intChars at hc
  split at hc
  · rcases List.mem_cons.1 hc with h | h
    · exact Or.inr h
    · exact Or.inl (natDigits_all_digit _ c h)
  · exact Or.inl (natDigits_all_digit _ c hc)

theorem intChars_ne_nil (m : Int) : intChars m ≠ [] := by
  unfold intChars
  split
  · simp
  · exact natDigits_ne_nil _

theorem paren_not_mem_intChars (m : Int) : '(' ∉ intChars m := by
  intro h
  rcases intChars_chars m '(' h with hd | hm
  · exact absurd hd (by decide)
  · exact absurd hm (by decide)

theorem indexOfChar_append_of_not_mem (l1 l2 : List Char) (c : Char) (h : c ∉ l1) :
    indexOfChar (l1 ++ l2) c = (indexOfChar l2 c).map (· + l1.length) := by
  induction l1 with
  | nil =>
    cases hio : indexOfChar l2 c with
    | none => simp [hio]
    | some i => simp [hio]
  | cons x t ih =>
    have hx : x ≠ c := fun he => h (he ▸ List.mem_cons_self x t)
    have ht : c ∉ t := fun hm => h (List.mem_cons_of_mem _ hm)
    rw [List.cons_append]
    rw [show indexOfChar (x :: (t ++ l2)) c
        = (indexOfChar (t ++ l2) c).map (· + 1) from by simp [indexOfChar, hx]]
    rw [ih ht]
    cases hio : indexOfChar l2 c with
    | none => simp
    | some i => simp [Nat.add_assoc]

theorem indexOfChar_cons_self (c : Char) (t : List Char) :
    indexOfChar (c :: t) c = some 0 := by
  simp [indexOfChar]

theorem drop_append_len (l1 l2 : List Char) (k : Nat) :
    (l1 ++ l2).drop (l1.length + k) = l2.drop k := by
  induction l1 with
  | nil => simp
  | cons x t ih =>
    have h1 : (x :: t).length + k = (t.length + k) + 1 := by
      simp only [List.length_cons]
      omega
    rw [List.cons_append, h1, List.drop_succ_cons, ih]

theorem drop_append_self (l1 l2 : List Char) : (l1 ++ l2).drop l1.length = l2 := by
  have h := drop_append_len l1 l2 0
  simp only [Nat.add_zero, List.drop_zero] at h
  exact h

theorem take_append_len (l1 l2 : List Char) : (l1 ++ l2).take l1.length = l1 := by
  induction l1 with
  | nil => rfl
  | cons x t ih =>
    simp only [List.cons_append, List.length_cons, List.take_succ_cons, ih]

theorem takeDigits_append (l1 l2 : List Char) (h1 : ∀ c ∈ l1, isDigitCh c = true)
    (h2 : headNotDigit l2) : takeDigits (l1 ++ l2) = l1 := by
  induction l1 with
  | nil =>
    cases l2 with
    | nil => rfl
    | cons c t =>
      simp only [headNotDigit] at h2
      simp [takeDigits, List.takeWhile_cons, h2]
  | cons x t ih =>
    have hx := h1 x (List.mem_cons_self x t)
    have ih2 := ih (fun c hc => h1 c (List.mem_cons_of_mem _ hc))
    simp only [takeDigits] at ih2 ⊢
    simp [List.takeWhile_cons, hx, ih2]

theorem parseDec_nonneg (nd l : List Char) (hnd : ∀ c ∈ nd, isDigitCh c = true)
    (hne : nd ≠ []) (hl : headNotDigit l)
    (hfit : fitsInt ((digitsToNat nd : Nat) : Int)) :
    parseDec (nd ++ l) = some (((digitsToNat nd : Nat) : Int), l) := by
  obtain ⟨c, t, rfl⟩ := List.exists_cons_of_ne_nil hne
  have hc := hnd c (List.mem_cons_self c t)
  have hc1 : c ≠ '-' := by rintro rfl; exact absurd hc (by decide)
  have hc2 : c ≠ '+' := by rintro rfl; exact absurd hc (by decide)
  have hsign : stripSign ((c :: t) ++ l) = (false, (c :: t) ++ l) := by
    rw [List.cons_append, stripSign_no_sign _ _ hc1 hc2]
  have hds : takeDigits ((c :: t) ++ l) = c :: t := takeDigits_append _ _ hnd hl
  simp only [fitsInt] at hfit
  simp only [parseDec, hsign, hds, List.isEmpty_cons, Bool.false_eq_true,
    if_false, if_true]
  rw [if_pos hfit, drop_append_self]

theorem parseDec_neg (nd l : List Char) (hnd : ∀ c ∈ nd, isDigitCh c = true)
    (hne : nd ≠ []) (hl : headNotDigit l)
    (hfit : fitsInt (-((digitsToNat nd : Nat) : Int))) :
    parseDec (('-' :: nd) ++ l) = some (-((digitsToNat nd : Nat) : Int), l) := by
  have hsign : stripSign (('-' :: nd) ++ l) = (true, nd ++ l) := by
    rw [List.cons_append]
    simp [stripSign]
  have hds : takeDigits (nd ++ l) = nd := takeDigits_append _ _ hnd hl
  have hne2 : nd.isEmpty = false := by
    obtain ⟨c, t, rfl⟩ := List.exists_cons_of_ne_nil hne
    rfl
  simp only [fitsInt] at hfit
  simp only [parseDec, hsign, hds, hne2, Bool.false_eq_true, if_false, if_true]
  rw [if_pos hfit, drop_append_self]

theorem parseDec_intChars (m : Int) (l : List Char) (hm : fitsInt m)
    (hl : headNotDigit l) : parseDec (intChars m ++ l) = some (m, l) := by
  by_cases hneg : m < 0
  · have hic : intChars m = '-' :: natDigits m.natAbs := by
      rw [intChars, if_pos hneg]
    have hv : -((digitsToNat (natDigits m.natAbs) : Nat) : Int) = m := by
      rw [digitsToNat_natDigits]
      omega
    rw [hic, List.cons_append, ← List.cons_append,
      parseDec_neg (natDigits m.natAbs) l (natDigits_all_digit _)
        (natDigits_ne_nil _) hl (by rw [hv]; exact hm), hv]
  · have hic : intChars m = natDigits m.natAbs := by
      rw [intChars, if_neg hneg]
    have hv : ((digitsToNat (natDigits m.natAbs) : Nat) : Int) = m := by
      rw [digitsToNat_natDigits]
      omega
    rw [hic,
      parseDec_nonneg (natDigits m.natAbs) l (natDigits_all_digit _)
        (natDigits_ne_nil _) hl (by rw [hv]; exact hm), hv]

theorem skipSpaces_intChars (m : Int) (l : List Char) :
    skipSpaces (intChars m ++ l) = intChars m ++ l := by
  obtain ⟨c, t, hct⟩ := List.exists_cons_of_ne_nil (intChars_ne_nil m)
  have hc : c ≠ ' ' := by
    rcases intChars_chars m c (by rw [hct]; exact List.mem_cons_self c t) with hd | hm
    · rintro rfl; exact absurd hd (by decide)
    · rintro rfl; exact absurd hm (by decide)
  rw [hct, List.cons_append]
  simp [skipSpaces, List.dropWhile_cons, hc]

theorem skipSpaces_space_intChars (m : Int) (l : List Char) :
    skipSpaces (' ' :: (intChars m ++ l)) = intChars m ++ l := by
  have h := skipSpaces_intChars m l
  simp only [skipSpaces, List.dropWhile_cons, if_pos rfl] at h ⊢
  exact h

theorem scanCDDD_serialized (state : Char) (ppid pgrp sid : Int)
    (trailing : List Char) (ht : headNotDigit trailing)
    (h1 : fitsInt ppid) (h2 : fitsInt pgrp) (h3 : fitsInt sid) :
    scanCDDD (state :: ' ' ::
        (intChars ppid ++
          (' ' :: (intChars pgrp ++ (' ' :: (intChars sid ++ trailing)))))) =
      (some state, some ppid, some pgrp, some sid) := by
  have e1 := skipSpaces_space_intChars ppid
    (' ' :: (intChars pgrp ++ (' ' :: (intChars sid ++ trailing))))
  have p1 := parseDec_intChars ppid
    (' ' :: (intChars pgrp ++ (' ' :: (intChars sid ++ trailing)))) h1
    (by exact (by decide : isDigitCh ' ' = false))
  have e2 := skipSpaces_space_intChars pgrp (' ' :: (intChars sid ++ trailing))
  have p2 := parseDec_intChars pgrp (' ' :: (intChars sid ++ trailing)) h2
    (by exact (by decide : isDigitCh ' ' = false))
  have e3 := skipSpaces_space_intChars sid trailing
  have p3 := parseDec_intChars sid trailing h3 ht
  simp only [scanCDDD, e1, p1, e2, p2, e3, p3]

theorem refreshParse_shape (p : UnixProcess) (A name B : List Char)
    (hA : '(' ∉ A) (hname : ')' ∉ name) (hB : B ≠ []) :
    refreshParse p (A ++ '(' :: (name ++ (')' :: B))) =
      GoRes.ok (refreshAssign { p with binary := name } (scanCDDD (B.drop 1)),
        (scanCDDD (B.drop 1)).2.2.2.isNone) := by
  have hidx : indexOfChar (A ++ '(' :: (name ++ (')' :: B))) '(' = some A.length := by
    rw [indexOfChar_append_of_not_mem _ _ _ hA, indexOfChar_cons_self]
    simp
  have hdrop1 : (A ++ '(' :: (name ++ (')' :: B))).drop (A.length + 1) =
      name ++ (')' :: B) := by
    rw [drop_append_len]
    rfl
  have hidx2 : indexOfChar (name ++ (')' :: B)) ')' = some name.length := by
    rw [indexOfChar_append_of_not_mem _ _ _ hname, indexOfChar_cons_self]
    simp
  have htake : (name ++ (')' :: B)).take name.length = name := take_append_len _ _
  have hlen : (A ++ '(' :: (name ++ (')' :: B))).length =
      A.length + name.length + B.length + 2 := by
    simp [List.length_append]
    omega
  have hBpos : 0 < B.length := List.length_pos.2 hB
  have hcond : ¬(A.length + 1 + name.length + 2 >
      (A ++ '(' :: (name ++ (')' :: B))).length) := by
    rw [hlen]
    omega
  have hdrop2 : (A ++ '(' :: (name ++ (')' :: B))).drop (A.length + 1 + name.length + 2) =
      B.drop 1 := by
    have e : A.length + 1 + name.length + 2 = A.length + (name.length + 2 + 1) := by
      omega
    rw [e, drop_append_len, List.drop_succ_cons, drop_append_len]
    rfl
  simp only [refreshParse, hidx, hdrop1, hidx2, htake]
  rw [if_neg hcond]
  simp only [hdrop2]

/-- C9 (counterexample): round-tripping fails on a valid record of the
documented format whose executable name is a(b)c: serializing the fields
(pid 300, name a(b)c, state S, ppid 1, pgrp 300, sid 300) yields
"300 (a(b)c) S 1 300 300", and parsing that record back truncates the
name to a(b and fails the numeric scan with an error, so the four core
fields are not reproduced. -/
theorem roundtrip_paren_cex :
    refreshParse (initProc 300)
        (serializeStat 300 ('a' :: '(' :: 'b' :: ')' :: 'c' :: []) 'S' 1 300 300 []) =
      GoRes.ok ({ pid := 300, ppid := 0, state := ')', pgrp := 0, sid := 0,
                  binary := 'a' :: '(' :: 'b' :: [] }, true) := by decide

/-- C9 (amended): for every valid status record of the documented format
whose executable name contains no closing parenthesis (and whose numeric
fields lie in the machine-int range, with the ignored trailing fields
not starting with a digit), parsing reproduces the four core fields —
identifier (supplied by the caller and equal to the record's leading
field), executable name, parent identifier and state — together with the
process group and session, exactly; so re-serializing those fields
reproduces the record's fields. -/
theorem parse_serialize_roundtrip (pid ppid pgrp sid : Int) (name : List Char)
    (state : Char) (trailing : List Char) (hname : ')' ∉ name)
    (ht : headNotDigit trailing)
    (h1 : fitsInt ppid) (h2 : fitsInt pgrp) (h3 : fitsInt sid) :
    refreshParse (initProc pid) (serializeStat pid name state ppid pgrp sid trailing) =
      GoRes.ok ({ pid := pid, ppid := ppid, state := state, pgrp := pgrp,
                  sid := sid, binary := name }, false) := by
  have hA : '(' ∉ (intChars pid ++ (' ' :: [])) := by
    intro h
    rcases List.mem_append.1 h with h | h
    · exact paren_not_mem_intChars pid h
    · simp at h
  have hB : (' ' :: state :: ' ' ::
      (intChars ppid ++
        (' ' :: (intChars pgrp ++ (' ' :: (intChars sid ++ trailing)))))) ≠
      ([] : List Char) := by simp
  rw [serializeStat, refreshParse_shape (initProc pid) _ name _ hA hname hB]
  simp only [List.drop_succ_cons, List.drop_zero]
  rw [scanCDDD_serialized state ppid pgrp sid trailing ht h1 h2 h3]
  simp [refreshAssign, initProc]

theorem parse_serialize_roundtrip_witness :
    refreshParse (initProc 5) (serializeStat 5 ('a' :: 'b' :: []) 'R' 1 2 3 []) =
      GoRes.ok ({ pid := 5, ppid := 1, state := 'R', pgrp := 2, sid := 3,
                  binary := 'a' :: 'b' :: [] }, false) :=
  parse_serialize_roundtrip 5 1 2 3 ('a' :: 'b' :: []) 'R' [] (by decide)
    trivial ⟨by decide, by decide⟩ ⟨by decide, by decide⟩ ⟨by decide, by decide⟩
